import Mathlib

/-!
Verification development for the wordle-agents repository.

Words are represented as lists of characters (`W`).  The Python source
indexes strings by position; out-of-range accesses are modelled with
`List.getD` and a default character, which agrees with the source on all
inputs of the intended length 5.
-/

set_option maxHeartbeats 1000000

abbrev W := List Char

/-- One step of the first (green) pass of `compute_feedback` in
`src/wordle_env.py`: at position `i`, if `guess[i] == target[i]` mark the
feedback `'g'` and consume target position `i`. -/
def greenStep (g t : W) (s : W × List Bool) (i : Nat) : W × List Bool :=
  if g.getD i ' ' = t.getD i ' ' then (s.1.set i 'g', s.2.set i true) else s

/-- The inner scan shared by the second pass of `compute_feedback` and of
`WordleEnv._feedback`: the first unconsumed target position `j < 5` with
`target[j] == guess[i]`. -/
def firstUnusedMatch (gi : Char) (t : W) (used : List Bool) : Option Nat :=
  (List.range 5).find? (fun j => !(used.getD j true) && (t.getD j ' ' == gi))

/-- One step of the second (yellow) pass of `compute_feedback`: at a
non-green position `i`, scan for an unconsumed matching target position;
if found mark `'y'` and consume it. -/
def yellowStep (g t : W) (s : W × List Bool) (i : Nat) : W × List Bool :=
  if s.1.getD i ' ' ≠ 'g' then
    match firstUnusedMatch (g.getD i ' ') t s.2 with
    | some j => (s.1.set i 'y', s.2.set j true)
    | none => s
  else s

/-- `compute_feedback(guess, target)` from `src/wordle_env.py`: feedback
starts as five `'b'`, a green pass marks exact positional matches, then a
yellow pass marks letters present elsewhere, consuming target positions. -/
def compute_feedback (g t : W) : W :=
  ((List.range 5).foldl (yellowStep g t)
    ((List.range 5).foldl (greenStep g t)
      (List.replicate 5 'b', List.replicate 5 false))).1

/-- `WordleAgent.match_feedback` from `src/agents.py`, iterating over
`zip(guess, result)` with index `i`:
green requires `word[i] == g`; yellow requires `g` in `word` and
`word[i] != g`; black requires `g` not in `word`. -/
def matchFeedbackAux (word : W) : Nat → List (Char × Char) → Bool
  | _, [] => true
  | i, (g, r) :: rest =>
    if r = 'g' ∧ word.getD i ' ' ≠ g then false
    else if r = 'y' ∧ (¬ word.contains g ∨ word.getD i ' ' = g) then false
    else if r = 'b' ∧ word.contains g then false
    else matchFeedbackAux word (i + 1) rest

/-- `WordleAgent.match_feedback(guess, result, word)` from `src/agents.py`. -/
def match_feedback (guess result word : W) : Bool :=
  matchFeedbackAux word 0 (guess.zip result)

/-!
Agent state.  `WordleAgent.__init__`/`reset` set `remaining` to the word
set, `history` to `[]` and `round` to `0`.  Python's `remaining` is a set
of distinct words (rebuilt as a list by the filtering agents); it is
modelled as the list of its elements.
-/

structure AgentState where
  remaining : List W
  history : List (W × W)
  round : Nat

/-- The shared part of `WordleAgent.process_feedback`: append the
`(guess, result)` pair to the history and bump the round counter. -/
def baseProcessFeedback (s : AgentState) (guess result : W) : AgentState :=
  { s with history := s.history ++ [(guess, result)], round := s.round + 1 }

/-- `RandomAgent.process_feedback`: base bookkeeping, then
`self.remaining.remove(guess)`.  `List.erase` models the successful
removal; when the guess is absent Python raises `KeyError` with the state
unchanged, which `erase` also leaves unchanged. -/
def RandomAgent.process_feedback (s : AgentState) (guess result : W) : AgentState :=
  { baseProcessFeedback s guess result with remaining := s.remaining.erase guess }

/-- `FrequencyAgent.process_feedback`: base bookkeeping, then keep the
words that pass `match_feedback` for the new pair. -/
def FrequencyAgent.process_feedback (s : AgentState) (guess result : W) : AgentState :=
  { baseProcessFeedback s guess result with
    remaining := s.remaining.filter (fun w => match_feedback guess result w) }

/-- Python's `max(iterable, key=key)`: first element attaining the
maximal key (a later element replaces the current best only when its key
is strictly greater). -/
def maxByKeyNat (key : W → Nat) (dflt : W) : List W → W
  | [] => dflt
  | x :: rest => rest.foldl (fun best y => if key best < key y then y else best) x

/-- `FrequencyAgent.letter_frequency_score` with
`letter_freq = sum(Counter(w) for w in remaining)`: the score of `guess`
is the sum over its distinct letters of the total number of occurrences
of that letter across the remaining words. -/
def letter_frequency_score (remaining : List W) (guess : W) : Nat :=
  (guess.dedup.map (fun c => ((remaining.map (fun w => w.count c)).sum))).sum

/-- `RandomAgent.guess`: `random.choice(self.remaining)`; the random
index is an explicit parameter.  No state is written. -/
def RandomAgent.guess (pick : Nat) (s : AgentState) : W × AgentState :=
  (s.remaining.getD pick [], s)

/-- `DiverseRandomAgent.guess`: the first element of `remaining` sorted
by number of distinct letters in (stable) descending order, i.e. the
first word attaining the maximal distinct-letter count. -/
def DiverseRandomAgent.guess (s : AgentState) : W × AgentState :=
  (maxByKeyNat (fun w => w.dedup.length) [] s.remaining, s)

/-- `FrequencyAgent.guess`: `max(self.remaining, key=letter_freq_score)`. -/
def FrequencyAgent.guess (s : AgentState) : W × AgentState :=
  (maxByKeyNat (letter_frequency_score s.remaining) [] s.remaining, s)

/-!
Entropy computation (`entropy_task_simple` and
`EntropyAgent.dispatch_compute_entropy` in `src/agents.py`).  Python
floats are modelled as real numbers, so these definitions are
noncomputable; everything proved about them avoids evaluation of reals.
-/

/-- `entropy_task_simple(guess)` against a candidate set: bucket the
candidate targets by their feedback for `guess` and return
`-Σ (count/total) * log2 (count/total)` over the non-empty buckets.
The distinct bucket keys are `fbs.dedup`; `total` is the size of the
candidate set. -/
noncomputable def entropy_task_simple (candidate_set : List W) (guess : W) : ℝ :=
  let fbs := candidate_set.map (fun target => compute_feedback guess target)
  let total : ℝ := (candidate_set.length : ℝ)
  Neg.neg ((fbs.dedup.map (fun fb =>
      ((fbs.count fb : ℝ) / total) * Real.logb 2 ((fbs.count fb : ℝ) / total))).sum)

/-- `executor.map(..., chunksize=50)` hands the input list to the workers
in successive chunks of 50. -/
def chunks50 {α : Type} : List α → List (List α)
  | [] => []
  | a :: rest => ((a :: rest).take 50) :: chunks50 ((a :: rest).drop 50)
termination_by l => l.length
decreasing_by simp; omega

/-- `EntropyAgent.dispatch_compute_entropy`.  `guesses` is
`list(self.remaining)` and `entropy_set` the chosen evaluation set
(the full remaining list when `num_samples_entropy` is `None`, otherwise
the drawn sample).  The parallel branch is `executor.map` over the same
guesses with `chunksize=50`, which returns the per-chunk results
concatenated in input order; the sequential branch is a list
comprehension over the guesses. -/
noncomputable def dispatch_compute_entropy (multiprocessing : Bool)
    (guesses entropy_set : List W) : List ℝ :=
  if multiprocessing then
    ((chunks50 guesses).map (fun chunk =>
        chunk.map (entropy_task_simple entropy_set))).flatten
  else
    guesses.map (entropy_task_simple entropy_set)

/-- State of an `EntropyAgent`: the shared agent state plus the
`init_entropy_cache` dictionary (association list in insertion order)
and the `multiprocessing` flag. -/
structure EntropyState extends AgentState where
  init_entropy_cache : List (W × ℝ)
  multiprocessing : Bool

/-- Python's `max(pairs, key=lambda x: x[1])[0]`: the first element whose
score attains the maximum. -/
noncomputable def maxBySndReal (dflt : W) : List (W × ℝ) → W
  | [] => dflt
  | p :: rest => (rest.foldl (fun best q => if best.2 < q.2 then q else best) p).1

/-- `EntropyAgent.guess` (with `num_samples_entropy = None`, the
configuration used by `src/evaluate.py`, so the evaluation set is the
remaining list itself).  On round 0 with a non-empty cache the best
cached word is returned without recomputation; otherwise entropies are
dispatched and, when the round-0 cache was empty, the freshly computed
scores are stored in `init_entropy_cache` (`must_save_cache`); the file
write that accompanies this is outside the modelled state.  The returned
word is `max(zip(remaining, entropies), key=score)`. -/
noncomputable def EntropyAgent.guess (s : EntropyState) : W × EntropyState :=
  if s.round = 0 ∧ s.init_entropy_cache ≠ [] then
    (maxBySndReal [] s.init_entropy_cache, s)
  else
    let entropies := dispatch_compute_entropy s.multiprocessing s.remaining s.remaining
    let s' := if s.round = 0 then
        { s with init_entropy_cache := s.remaining.zip entropies }
      else s
    (maxBySndReal [] (s.remaining.zip entropies), s')

/-- `EntropyAgent.process_feedback`: same narrowing as the frequency
agent, on the entropy agent's state. -/
def EntropyAgent.process_feedback (s : EntropyState) (guess result : W) : EntropyState :=
  { s with toAgentState := FrequencyAgent.process_feedback s.toAgentState guess result }

/-- `ExploreExploitAgent.guess`: entropy selection while
`round < exploration_rounds`, letter-frequency selection afterwards. -/
noncomputable def ExploreExploitAgent.guess (exploration_rounds : Nat)
    (s : EntropyState) : W × EntropyState :=
  if s.round < exploration_rounds then EntropyAgent.guess s
  else (maxByKeyNat (letter_frequency_score s.remaining) [] s.remaining, s)

/-!
The gym environment's `WordleEnv._feedback` (`src/wordle_env.py`):
a 5×3 matrix of 0/1 entries, row `i` holding the one-hot classification
of position `i` (column 0 grey, 1 yellow, 2 green).
-/

/-- Green pass of `WordleEnv._feedback`: row `i` gets `result[i,2] = 1`
and target position `i` is consumed when `guess[i] == target[i]`,
otherwise `result[i,0] = 1` (initially grey). -/
def envGreenStep (g t : W) (s : List (List Nat) × List Bool) (i : Nat) :
    List (List Nat) × List Bool :=
  if g.getD i ' ' = t.getD i ' ' then
    (s.1.set i ((s.1.getD i []).set 2 1), s.2.set i true)
  else
    (s.1.set i ((s.1.getD i []).set 0 1), s.2)

/-- Yellow pass of `WordleEnv._feedback`: for a non-green position whose
letter occurs in the target, scan for an unconsumed matching target
position (the same scan as the oracle's second pass); if found, set
`result[i,1] = 1` and clear `result[i,0]`. -/
def envYellowStep (g t : W) (s : List (List Nat) × List Bool) (i : Nat) :
    List (List Nat) × List Bool :=
  if (s.1.getD i []).getD 2 0 = 0 ∧ t.contains (g.getD i ' ') then
    match firstUnusedMatch (g.getD i ' ') t s.2 with
    | some j => (s.1.set i (((s.1.getD i []).set 1 1).set 0 0), s.2.set j true)
    | none => s
  else s

/-- `WordleEnv._feedback(guess, target)`: zero matrix, green pass, then
yellow pass. -/
def envFeedback (g t : W) : List (List Nat) :=
  ((List.range 5).foldl (envYellowStep g t)
    ((List.range 5).foldl (envGreenStep g t)
      (List.replicate 5 (List.replicate 3 0), List.replicate 5 false))).1

/-- One-hot encoding of a feedback symbol as a row of the environment
matrix: green `[0,0,1]`, yellow `[0,1,0]`, anything else (grey/black)
`[1,0,0]`. -/
def encode (c : Char) : List Nat :=
  if c = 'g' then [0, 0, 1] else if c = 'y' then [0, 1, 0] else [1, 0, 0]

/-- Column index (0 grey, 1 yellow, 2 green) of a feedback symbol. -/
def symCol (c : Char) : Nat :=
  if c = 'g' then 2 else if c = 'y' then 1 else 0

/-!
The evaluation driver `evaluate_agent` (`src/evaluate.py`), over an
arbitrary agent given by its `guess` and `process_feedback` functions.
`agent.reset()` is modelled by starting from the reset state; the random
fallback word used when the candidate set is empty is a parameter.
-/

/-- The all-green feedback `'ggggg'`. -/
def greensW : W := ['g', 'g', 'g', 'g', 'g']

/-- The loop of `evaluate_agent`: `for attempt in range(1, 6)` — the
fuel counts the attempts left, `attempt` is the current attempt number.
Each iteration takes a guess (the fallback when `remaining` is empty),
computes its feedback, processes it, and returns the attempt number on
all-green; the loop exits with 6 when the fuel runs out. -/
def evalGo (guessF : AgentState → W) (procF : AgentState → W → W → AgentState)
    (fallback target : W) : Nat → Nat → AgentState → Nat
  | 0, _, _ => 6
  | fuel + 1, attempt, s =>
    let guess := if s.remaining.isEmpty then fallback else guessF s
    let result := compute_feedback guess target
    let s' := procF s guess result
    if result = greensW then attempt else evalGo guessF procF fallback target fuel (attempt + 1) s'

/-- `evaluate_agent(agent, word_list, target)`: run the loop for the five
attempts `range(1, 6)`, returning 6 when unsolved. -/
def evaluate_agent (guessF : AgentState → W) (procF : AgentState → W → W → AgentState)
    (fallback : W) (s : AgentState) (target : W) : Nat :=
  evalGo guessF procF fallback target 5 1 s

/-- The sequence of feedback codes the driver observes. -/
def traceFeedbacks (guessF : AgentState → W) (procF : AgentState → W → W → AgentState)
    (fallback target : W) : Nat → AgentState → List W
  | 0, _ => []
  | fuel + 1, s =>
    let guess := if s.remaining.isEmpty then fallback else guessF s
    let result := compute_feedback guess target
    result :: traceFeedbacks guessF procF fallback target fuel (procF s guess result)

/-- Index of the first all-green feedback in a trace, if any. -/
def firstGreenIdx : List W → Option Nat
  | [] => none
  | r :: rest => if r = greensW then some 0 else (firstGreenIdx rest).map (· + 1)

/-!
Helper lemmas about list indexing with defaults.
-/

lemma getD_set_ne {α : Type} (l : List α) (i k : Nat) (v d : α) (h : k ≠ i) :
    (l.set i v).getD k d = l.getD k d := by
  simp [List.getD, List.getElem?_set_ne (by omega : i ≠ k)]

lemma getD_set_self {α : Type} (l : List α) (i : Nat) (v d : α) (h : i < l.length) :
    (l.set i v).getD i d = v := by
  simp [List.getD, List.getElem?_set_self, h]

lemma getD_replicate {α : Type} {n i : Nat} (h : i < n) (c d : α) :
    (List.replicate n c).getD i d = c := by
  simp [List.getD, List.getElem?_replicate, h]

lemma getD_map {α β : Type} (l : List α) (i : Nat) (f : α → β) (h : i < l.length)
    (d : α) (e : β) : (l.map f).getD i e = f (l.getD i d) := by
  simp [List.getD, List.getElem?_map, List.getElem?_eq_getElem h]

-- sanity checks (concrete evaluations of the oracle)
example : compute_feedback ['s','o','u','n','d'] ['s','o','u','n','d']
    = ['g','g','g','g','g'] := by decide
example : compute_feedback ['c','r','a','t','e'] ['t','r','a','c','e']
    = ['y','g','g','y','g'] := by decide
example : compute_feedback ['a','a','b','c','d'] ['e','e','a','a','b']
    = ['y','y','y','b','b'] := by decide
example : compute_feedback ['a','a','b','c','d'] ['b','z','a','z','z']
    = ['y','b','y','b','b'] := by decide
example : compute_feedback ['a','a','b','b','b'] ['a','b','c','c','c']
    = ['g','b','y','b','b'] := by decide
example : match_feedback ['a','a','b','b','b'] ['g','b','y','b','b']
    ['a','b','c','c','c'] = false := by decide
example : match_feedback ['a','a','b','c','d'] ['y','y','y','b','b']
    ['b','z','a','z','z'] = true := by decide

/-- C5: for every agent variant, a `process_feedback` call never grows
the candidate set: `RandomAgent` removes the guess, `FrequencyAgent` and
`EntropyAgent` (and the variants inheriting from them) filter the
remaining words, so the number of remaining words is non-increasing. -/
theorem C5_candidate_set_nonincreasing (s : AgentState) (es : EntropyState)
    (guess result : W) :
    (RandomAgent.process_feedback s guess result).remaining.length ≤ s.remaining.length
    ∧ (FrequencyAgent.process_feedback s guess result).remaining.length ≤ s.remaining.length
    ∧ (EntropyAgent.process_feedback es guess result).remaining.length ≤ es.remaining.length := by
  refine ⟨?_, ?_, ?_⟩
  · exact (List.erase_sublist guess s.remaining).length_le
  · exact List.length_filter_le _ s.remaining
  · exact List.length_filter_le _ es.remaining

/-- C7 counterexample: the oracle's feedback for guess "crate" against
target "trace" is not "yyyyy" — the letters r, a, e sit in matching
positions, so they come out green. -/
theorem C7_counterexample :
    compute_feedback ['c','r','a','t','e'] ['t','r','a','c','e']
      ≠ ['y','y','y','y','y'] := by decide

/-- C7 amended: `compute_feedback("crate", "trace")` returns "yggyg":
'c' and 't' are yellow (present elsewhere), while 'r', 'a', 'e' are in
the correct position and come out green. -/
theorem C7_crate_trace :
    compute_feedback ['c','r','a','t','e'] ['t','r','a','c','e']
      = ['y','g','g','y','g'] := by decide

/-- C10: the positional candidate filter can eliminate the true target:
for the guess "aabbb" (with repeated letters) and the target "abccc",
the oracle's feedback gives 'b' (black) to the second 'a' of the guess,
and `match_feedback` then rejects the target itself because it does
contain an 'a'. -/
theorem C10_filter_eliminates_target :
    ∃ g w : W, g.length = 5 ∧ w.length = 5 ∧ 2 ≤ g.count 'a' ∧
      match_feedback g (compute_feedback g w) w = false :=
  ⟨['a','a','b','b','b'], ['a','b','c','c','c'],
    by decide, by decide, by decide, by decide⟩

/-!
Closed form of the green pass for length-5 words, and structural facts
about the yellow pass, used for C2 and C9.
-/

lemma exists_five (l : W) (h : l.length = 5) :
    ∃ c0 c1 c2 c3 c4, l = [c0, c1, c2, c3, c4] := by
  rcases l with _ | ⟨c0, _ | ⟨c1, _ | ⟨c2, _ | ⟨c3, _ | ⟨c4, _ | ⟨c5, r⟩⟩⟩⟩⟩⟩ <;> simp_all

lemma green_oracle_eval (a0 a1 a2 a3 a4 b0 b1 b2 b3 b4 : Char) :
    (List.range 5).foldl (greenStep [a0,a1,a2,a3,a4] [b0,b1,b2,b3,b4])
      (List.replicate 5 'b', List.replicate 5 false)
    = ([if a0 = b0 then 'g' else 'b', if a1 = b1 then 'g' else 'b',
        if a2 = b2 then 'g' else 'b', if a3 = b3 then 'g' else 'b',
        if a4 = b4 then 'g' else 'b'],
       [decide (a0 = b0), decide (a1 = b1), decide (a2 = b2),
        decide (a3 = b3), decide (a4 = b4)]) := by
  rw [show List.range 5 = [0,1,2,3,4] from rfl]
  simp only [List.foldl_cons, List.foldl_nil, greenStep,
    show ([a0,a1,a2,a3,a4] : W).getD 0 ' ' = a0 from rfl,
    show ([a0,a1,a2,a3,a4] : W).getD 1 ' ' = a1 from rfl,
    show ([a0,a1,a2,a3,a4] : W).getD 2 ' ' = a2 from rfl,
    show ([a0,a1,a2,a3,a4] : W).getD 3 ' ' = a3 from rfl,
    show ([a0,a1,a2,a3,a4] : W).getD 4 ' ' = a4 from rfl,
    show ([b0,b1,b2,b3,b4] : W).getD 0 ' ' = b0 from rfl,
    show ([b0,b1,b2,b3,b4] : W).getD 1 ' ' = b1 from rfl,
    show ([b0,b1,b2,b3,b4] : W).getD 2 ' ' = b2 from rfl,
    show ([b0,b1,b2,b3,b4] : W).getD 3 ' ' = b3 from rfl,
    show ([b0,b1,b2,b3,b4] : W).getD 4 ' ' = b4 from rfl]
  split_ifs <;> simp_all

lemma green_env_eval (a0 a1 a2 a3 a4 b0 b1 b2 b3 b4 : Char) :
    (List.range 5).foldl (envGreenStep [a0,a1,a2,a3,a4] [b0,b1,b2,b3,b4])
      (List.replicate 5 (List.replicate 3 0), List.replicate 5 false)
    = ([if a0 = b0 then [0,0,1] else [1,0,0], if a1 = b1 then [0,0,1] else [1,0,0],
        if a2 = b2 then [0,0,1] else [1,0,0], if a3 = b3 then [0,0,1] else [1,0,0],
        if a4 = b4 then [0,0,1] else [1,0,0]],
       [decide (a0 = b0), decide (a1 = b1), decide (a2 = b2),
        decide (a3 = b3), decide (a4 = b4)]) := by
  rw [show List.range 5 = [0,1,2,3,4] from rfl]
  simp only [List.foldl_cons, List.foldl_nil, envGreenStep,
    show ([a0,a1,a2,a3,a4] : W).getD 0 ' ' = a0 from rfl,
    show ([a0,a1,a2,a3,a4] : W).getD 1 ' ' = a1 from rfl,
    show ([a0,a1,a2,a3,a4] : W).getD 2 ' ' = a2 from rfl,
    show ([a0,a1,a2,a3,a4] : W).getD 3 ' ' = a3 from rfl,
    show ([a0,a1,a2,a3,a4] : W).getD 4 ' ' = a4 from rfl,
    show ([b0,b1,b2,b3,b4] : W).getD 0 ' ' = b0 from rfl,
    show ([b0,b1,b2,b3,b4] : W).getD 1 ' ' = b1 from rfl,
    show ([b0,b1,b2,b3,b4] : W).getD 2 ' ' = b2 from rfl,
    show ([b0,b1,b2,b3,b4] : W).getD 3 ' ' = b3 from rfl,
    show ([b0,b1,b2,b3,b4] : W).getD 4 ' ' = b4 from rfl]
  split_ifs <;> simp_all

/-- Reading any position of `l.set i v`: either the untouched old value,
or `v` at an in-range position `i`. -/
lemma getD_set_cases {α : Type} (l : List α) (i k : Nat) (v d : α) :
    (l.set i v).getD k d = l.getD k d
    ∨ ((l.set i v).getD k d = v ∧ k = i ∧ i < l.length) := by
  by_cases hk : k = i
  · by_cases hi : i < l.length
    · exact Or.inr ⟨hk ▸ getD_set_self l i v d hi, hk, hi⟩
    · left
      rw [List.set_eq_of_length_le (by omega)]
  · exact Or.inl (getD_set_ne l i k v d hk)

/-- A single yellow step never introduces a green mark. -/
lemma yellowStep_green_mono (g t : W) (s : W × List Bool) (i k : Nat)
    (h : (yellowStep g t s i).1.getD k ' ' = 'g') : s.1.getD k ' ' = 'g' := by
  unfold yellowStep at h
  split at h
  · cases hm : firstUnusedMatch (g.getD i ' ') t s.2 with
    | none => rw [hm] at h; exact h
    | some j =>
      rw [hm] at h
      rcases getD_set_cases s.1 i k 'y' ' ' with hc | ⟨hc, _, _⟩
      · rw [← hc]; exact h
      · rw [hc] at h; exact absurd h (by decide)
  · exact h

/-- The whole yellow pass never introduces a green mark. -/
lemma yellowFold_green_mono (g t : W) (idxs : List Nat) (s : W × List Bool)
    (k : Nat) (h : (idxs.foldl (yellowStep g t) s).1.getD k ' ' = 'g') :
    s.1.getD k ' ' = 'g' := by
  induction idxs generalizing s with
  | nil => exact h
  | cons i rest ih =>
    simp only [List.foldl_cons] at h
    exact yellowStep_green_mono g t s i k (ih _ h)

/-- The yellow pass leaves a state alone when every scanned position is
already green. -/
lemma yellowFold_skip_all_green (g t : W) (idxs : List Nat) (s : W × List Bool)
    (h : ∀ i ∈ idxs, s.1.getD i ' ' = 'g') :
    idxs.foldl (yellowStep g t) s = s := by
  induction idxs with
  | nil => rfl
  | cons i rest ih =>
    have hstep : yellowStep g t s i = s := by
      unfold yellowStep
      rw [if_neg (not_ne_iff.mpr (h i (by simp)))]
    simp only [List.foldl_cons, hstep]
    exact ih (fun j hj => h j (by simp [hj]))

/-- C2: for length-5 words, the oracle's feedback is all green exactly
when guess and target coincide: the green pass marks position `i` green
iff `guess[i] = target[i]`, and the yellow pass never adds a green. -/
theorem C2_all_green_iff_eq (g t : W) (hg : g.length = 5) (ht : t.length = 5) :
    compute_feedback g t = List.replicate 5 'g' ↔ g = t := by
  obtain ⟨a0, a1, a2, a3, a4, rfl⟩ := exists_five g hg
  obtain ⟨b0, b1, b2, b3, b4, rfl⟩ := exists_five t ht
  constructor
  · intro h
    unfold compute_feedback at h
    rw [green_oracle_eval] at h
    have hm : ∀ k, ((List.range 5).foldl
        (yellowStep [a0,a1,a2,a3,a4] [b0,b1,b2,b3,b4])
        ([if a0 = b0 then 'g' else 'b', if a1 = b1 then 'g' else 'b',
          if a2 = b2 then 'g' else 'b', if a3 = b3 then 'g' else 'b',
          if a4 = b4 then 'g' else 'b'],
         [decide (a0 = b0), decide (a1 = b1), decide (a2 = b2),
          decide (a3 = b3), decide (a4 = b4)])).1.getD k ' '
        = (List.replicate 5 'g' : W).getD k ' ' := by
      intro k; rw [h]
    have h0 : (if a0 = b0 then 'g' else 'b') = 'g' :=
      yellowFold_green_mono _ _ (List.range 5) _ 0 (hm 0)
    have h1 : (if a1 = b1 then 'g' else 'b') = 'g' :=
      yellowFold_green_mono _ _ (List.range 5) _ 1 (hm 1)
    have h2 : (if a2 = b2 then 'g' else 'b') = 'g' :=
      yellowFold_green_mono _ _ (List.range 5) _ 2 (hm 2)
    have h3 : (if a3 = b3 then 'g' else 'b') = 'g' :=
      yellowFold_green_mono _ _ (List.range 5) _ 3 (hm 3)
    have h4 : (if a4 = b4 then 'g' else 'b') = 'g' :=
      yellowFold_green_mono _ _ (List.range 5) _ 4 (hm 4)
    have e0 : a0 = b0 := by
      by_contra hne; rw [if_neg hne] at h0; exact absurd h0 (by decide)
    have e1 : a1 = b1 := by
      by_contra hne; rw [if_neg hne] at h1; exact absurd h1 (by decide)
    have e2 : a2 = b2 := by
      by_contra hne; rw [if_neg hne] at h2; exact absurd h2 (by decide)
    have e3 : a3 = b3 := by
      by_contra hne; rw [if_neg hne] at h3; exact absurd h3 (by decide)
    have e4 : a4 = b4 := by
      by_contra hne; rw [if_neg hne] at h4; exact absurd h4 (by decide)
    rw [e0, e1, e2, e3, e4]
  · intro h
    simp only [List.cons.injEq, and_true] at h
    obtain ⟨e0, e1, e2, e3, e4⟩ := h
    subst e0 e1 e2 e3 e4
    unfold compute_feedback
    rw [green_oracle_eval]
    simp only [if_pos rfl]
    rw [yellowFold_skip_all_green _ _ _ _ (by decide)]
    decide

/-- C2 witness: guess = target = "sound" gives all-green feedback. -/
theorem C2_witness :
    compute_feedback ['s','o','u','n','d'] ['s','o','u','n','d']
      = List.replicate 5 'g' :=
  (C2_all_green_iff_eq ['s','o','u','n','d'] ['s','o','u','n','d']
    (by decide) (by decide)).mpr rfl

/-!
Simulation between `WordleEnv._feedback` and `compute_feedback` (C9).
-/

lemma yellowStep_fst_length (g t : W) (s : W × List Bool) (i : Nat) :
    (yellowStep g t s i).1.length = s.1.length := by
  unfold yellowStep
  split
  · cases firstUnusedMatch (g.getD i ' ') t s.2 with
    | some j => simp
    | none => rfl
  · rfl

lemma yellowFold_fst_length (g t : W) (idxs : List Nat) (s : W × List Bool) :
    (idxs.foldl (yellowStep g t) s).1.length = s.1.length := by
  induction idxs generalizing s with
  | nil => rfl
  | cons i rest ih =>
    simp only [List.foldl_cons]
    rw [ih, yellowStep_fst_length]

lemma greenStep_fst_length (g t : W) (s : W × List Bool) (i : Nat) :
    (greenStep g t s i).1.length = s.1.length := by
  unfold greenStep
  split <;> simp

lemma greenFold_fst_length (g t : W) (idxs : List Nat) (s : W × List Bool) :
    (idxs.foldl (greenStep g t) s).1.length = s.1.length := by
  induction idxs generalizing s with
  | nil => rfl
  | cons i rest ih =>
    simp only [List.foldl_cons]
    rw [ih, greenStep_fst_length]

/-- The oracle's feedback always has five symbols. -/
lemma compute_feedback_length (g t : W) : (compute_feedback g t).length = 5 := by
  unfold compute_feedback
  rw [yellowFold_fst_length, greenFold_fst_length]
  rfl

lemma contains_false_not_mem (t : W) (c : Char) (h : t.contains c = false) :
    c ∉ t := by
  intro hc
  have : t.contains c = true := by simp [List.contains, List.elem_iff, hc]
  rw [h] at this
  exact absurd this (by decide)

/-- When the guessed letter does not occur in the target at all, the
inner scan finds nothing. -/
lemma firstUnusedMatch_none (gi : Char) (t : W) (used : List Bool)
    (ht : t.length = 5) (hmem : t.contains gi = false) :
    firstUnusedMatch gi t used = none := by
  unfold firstUnusedMatch
  apply List.find?_eq_none.mpr
  intro j hj
  have hj5 : j < 5 := List.mem_range.mp hj
  have hne : t.getD j ' ' ≠ gi := by
    have hjt : j < t.length := by omega
    have : t.getD j ' ' = t[j] := by
      simp [List.getD, List.getElem?_eq_getElem hjt]
    rw [this]
    intro heq
    exact contains_false_not_mem t gi hmem (heq ▸ List.getElem_mem hjt)
  intro hcond
  simp only [Bool.and_eq_true, beq_iff_eq] at hcond
  exact hne hcond.2

lemma encode_set_yellow (c : Char) (h : c ≠ 'g') :
    ((encode c).set 1 1).set 0 0 = encode 'y' := by
  by_cases hy : c = 'y' <;> simp [encode, h, hy]

lemma encode_getD2_eq_zero (c : Char) (h : c ≠ 'g') : (encode c).getD 2 0 = 0 := by
  by_cases hy : c = 'y' <;> simp [encode, h, hy]

/-- One yellow step of the environment simulates one yellow step of the
oracle through the `encode` correspondence. -/
lemma envYellowStep_sim (g t : W) (ht : t.length = 5) (fb : W)
    (used : List Bool) (hfb : fb.length = 5) (i : Nat) (hi : i < 5) :
    envYellowStep g t (fb.map encode, used) i
    = ((yellowStep g t (fb, used) i).1.map encode,
       (yellowStep g t (fb, used) i).2) := by
  have hrow : (fb.map encode).getD i [] = encode (fb.getD i ' ') :=
    getD_map fb i encode (by omega) ' ' []
  by_cases hg : fb.getD i ' ' = 'g'
  · have ho : yellowStep g t (fb, used) i = (fb, used) := by
      unfold yellowStep
      exact if_neg (not_ne_iff.mpr hg)
    have he : envYellowStep g t (fb.map encode, used) i = (fb.map encode, used) := by
      unfold envYellowStep
      apply if_neg
      rw [hrow, hg]
      simp [encode]
    rw [ho, he]
  · by_cases hmem : t.contains (g.getD i ' ')
    · have hc : (((fb.map encode, used) : List (List Nat) × List Bool).1.getD i []).getD 2 0 = 0
          ∧ t.contains (g.getD i ' ') = true :=
        ⟨by rw [hrow]; exact encode_getD2_eq_zero _ hg, hmem⟩
      unfold envYellowStep yellowStep
      rw [if_pos hc, if_pos hg]
      cases hfind : firstUnusedMatch (g.getD i ' ') t used with
      | some j =>
        simp only [hrow]
        rw [List.map_set, encode_set_yellow _ hg]
      | none => rfl
    · have hnone : firstUnusedMatch (g.getD i ' ') t used = none :=
        firstUnusedMatch_none _ t used ht (by simpa using hmem)
      have ho : yellowStep g t (fb, used) i = (fb, used) := by
        unfold yellowStep
        rw [if_pos hg, hnone]
      have he : envYellowStep g t (fb.map encode, used) i = (fb.map encode, used) := by
        unfold envYellowStep
        apply if_neg
        intro hc
        exact hmem hc.2
      rw [ho, he]

/-- The environment's whole yellow pass simulates the oracle's. -/
lemma envYellowFold_sim (g t : W) (ht : t.length = 5) (idxs : List Nat)
    (h5 : ∀ i ∈ idxs, i < 5) (fb : W) (used : List Bool) (hfb : fb.length = 5) :
    idxs.foldl (envYellowStep g t) (fb.map encode, used)
    = ((idxs.foldl (yellowStep g t) (fb, used)).1.map encode,
       (idxs.foldl (yellowStep g t) (fb, used)).2) := by
  induction idxs generalizing fb used with
  | nil => rfl
  | cons i rest ih =>
    simp only [List.foldl_cons]
    rw [envYellowStep_sim g t ht fb used hfb i (h5 i (by simp))]
    have hfb' : (yellowStep g t (fb, used) i).1.length = 5 := by
      rw [yellowStep_fst_length]; exact hfb
    rw [ih (fun j hj => h5 j (by simp [hj])) _ _ hfb']

/-- The environment matrix is exactly the oracle's feedback string with
each symbol replaced by its one-hot row. -/
lemma envFeedback_eq_map_encode (g t : W) (hg : g.length = 5) (ht : t.length = 5) :
    envFeedback g t = (compute_feedback g t).map encode := by
  obtain ⟨a0, a1, a2, a3, a4, rfl⟩ := exists_five g hg
  obtain ⟨b0, b1, b2, b3, b4, rfl⟩ := exists_five t ht
  unfold envFeedback compute_feedback
  rw [green_env_eval, green_oracle_eval]
  have hmap : ([if a0 = b0 then [0,0,1] else [1,0,0], if a1 = b1 then [0,0,1] else [1,0,0],
      if a2 = b2 then [0,0,1] else [1,0,0], if a3 = b3 then [0,0,1] else [1,0,0],
      if a4 = b4 then [0,0,1] else [1,0,0]] : List (List Nat))
      = ([if a0 = b0 then 'g' else 'b', if a1 = b1 then 'g' else 'b',
          if a2 = b2 then 'g' else 'b', if a3 = b3 then 'g' else 'b',
          if a4 = b4 then 'g' else 'b'] : W).map encode := by
    simp only [List.map_cons, List.map_nil, apply_ite encode,
      show encode 'g' = [0,0,1] from rfl, show encode 'b' = [1,0,0] from rfl]
  rw [hmap]
  rw [envYellowFold_sim _ _ ht (List.range 5) (fun i hi => List.mem_range.mp hi)
    _ _ (by simp)]

/-- C9: for length-5 guess and target, each row of the 5×3 matrix of
`WordleEnv._feedback` sums to 1 (one-hot over the three classes) and the
hot entry sits in the column corresponding to the symbol of
`compute_feedback` at that position (0 grey/black, 1 yellow, 2 green). -/
theorem C9_env_matrix_matches_oracle (g t : W) (hg : g.length = 5)
    (ht : t.length = 5) (i : Nat) (hi : i < 5) :
    ((envFeedback g t).getD i []).sum = 1
    ∧ ((envFeedback g t).getD i []).getD
        (symCol ((compute_feedback g t).getD i ' ')) 0 = 1 := by
  have hlen : i < (compute_feedback g t).length := by
    rw [compute_feedback_length]; omega
  have hrow : (envFeedback g t).getD i []
      = encode ((compute_feedback g t).getD i ' ') := by
    rw [envFeedback_eq_map_encode g t hg ht]
    exact getD_map _ i encode hlen ' ' []
  rw [hrow]
  generalize (compute_feedback g t).getD i ' ' = c
  by_cases hc : c = 'g'
  · simp [encode, symCol, hc]
  · by_cases hy : c = 'y'
    · simp [encode, symCol, hc, hy]
    · simp [encode, symCol, hc, hy]

/-- C9 witness: instantiated for guess "crate", target "trace" at
position 0. -/
theorem C9_witness :
    ((envFeedback ['c','r','a','t','e'] ['t','r','a','c','e']).getD 0 []).sum = 1
    ∧ ((envFeedback ['c','r','a','t','e'] ['t','r','a','c','e']).getD 0 []).getD
        (symCol ((compute_feedback ['c','r','a','t','e']
          ['t','r','a','c','e']).getD 0 ' ')) 0 = 1 :=
  C9_env_matrix_matches_oracle ['c','r','a','t','e'] ['t','r','a','c','e']
    (by decide) (by decide) 0 (by decide)

/-!
C1: consistency of the candidate set with the recorded history.
-/

/-- A game as seen through `process_feedback`: fold a sequence of
`(guess, feedback)` pairs through `FrequencyAgent.process_feedback`. -/
def runFrequencyFeedbacks (s : AgentState) (pairs : List (W × W)) : AgentState :=
  pairs.foldl (fun st p => FrequencyAgent.process_feedback st p.1 p.2) s

/-- The same fold through `EntropyAgent.process_feedback`. -/
def runEntropyFeedbacks (es : EntropyState) (pairs : List (W × W)) : EntropyState :=
  pairs.foldl (fun st p => EntropyAgent.process_feedback st p.1 p.2) es

lemma freq_filter_invariant (pairs : List (W × W)) (s : AgentState)
    (h : ∀ w ∈ s.remaining, ∀ p ∈ s.history, match_feedback p.1 p.2 w = true) :
    ∀ w ∈ (runFrequencyFeedbacks s pairs).remaining,
      ∀ p ∈ (runFrequencyFeedbacks s pairs).history,
        match_feedback p.1 p.2 w = true := by
  induction pairs generalizing s with
  | nil => exact h
  | cons q rest ih =>
    apply ih
    intro w hw p hp
    have hw' : w ∈ s.remaining ∧ match_feedback q.1 q.2 w = true := by
      simpa [FrequencyAgent.process_feedback, baseProcessFeedback,
        List.mem_filter] using hw
    have hp' : p ∈ s.history ∨ p = (q.1, q.2) := by
      simpa [FrequencyAgent.process_feedback, baseProcessFeedback] using hp
    rcases hp' with hp' | hp'
    · exact h w hw'.1 p hp'
    · rw [hp']
      exact hw'.2

lemma runEntropy_toAgentState (pairs : List (W × W)) (es : EntropyState) :
    (runEntropyFeedbacks es pairs).toAgentState
    = runFrequencyFeedbacks es.toAgentState pairs := by
  induction pairs generalizing es with
  | nil => rfl
  | cons q rest ih =>
    exact ih _

/-- C1 counterexample: a word can stay in the candidate set while being
inconsistent with the recorded feedback under oracle replay.  Guessing
"aabcd" against target "eeaab" records feedback "yyybb"; the word
"bzazz" passes `match_feedback` (so the `FrequencyAgent` keeps it) yet
`compute_feedback("aabcd", "bzazz")` is "ybybb", not the recorded
"yyybb" — the positional filter does not count duplicate letters. -/
theorem C1_counterexample :
    (['b','z','a','z','z'] : W) ∈ (FrequencyAgent.process_feedback
        ⟨[['e','e','a','a','b'], ['b','z','a','z','z']], [], 0⟩
        ['a','a','b','c','d']
        (compute_feedback ['a','a','b','c','d'] ['e','e','a','a','b'])).remaining
    ∧ (['a','a','b','c','d'],
        compute_feedback ['a','a','b','c','d'] ['e','e','a','a','b'])
        ∈ (FrequencyAgent.process_feedback
        ⟨[['e','e','a','a','b'], ['b','z','a','z','z']], [], 0⟩
        ['a','a','b','c','d']
        (compute_feedback ['a','a','b','c','d'] ['e','e','a','a','b'])).history
    ∧ compute_feedback ['a','a','b','c','d'] ['b','z','a','z','z']
        ≠ compute_feedback ['a','a','b','c','d'] ['e','e','a','a','b'] := by
  decide

/-- C1 amended: for the filtering agents (`FrequencyAgent` and
`EntropyAgent`, hence also the variants inheriting their
`process_feedback`), after any sequence of `process_feedback` calls in a
fresh game every remaining word passes `match_feedback` for every
recorded `(guess, feedback)` pair.  This positional-filter consistency is
what the code maintains; full oracle-replay consistency does not hold,
and `RandomAgent` only removes its own guesses. -/
theorem C1_filter_history_invariant (pairs : List (W × W)) (s : AgentState)
    (es : EntropyState) (hs : s.history = []) (hes : es.history = []) :
    (∀ w ∈ (runFrequencyFeedbacks s pairs).remaining,
       ∀ p ∈ (runFrequencyFeedbacks s pairs).history,
         match_feedback p.1 p.2 w = true)
    ∧ (∀ w ∈ (runEntropyFeedbacks es pairs).remaining,
       ∀ p ∈ (runEntropyFeedbacks es pairs).history,
         match_feedback p.1 p.2 w = true) := by
  constructor
  · exact freq_filter_invariant pairs s (by rw [hs]; intro w _ p hp; cases hp)
  · intro w hw p hp
    have hh : (runEntropyFeedbacks es pairs).history
        = (runFrequencyFeedbacks es.toAgentState pairs).history := by
      rw [← runEntropy_toAgentState]
    have hr : (runEntropyFeedbacks es pairs).remaining
        = (runFrequencyFeedbacks es.toAgentState pairs).remaining := by
      rw [← runEntropy_toAgentState]
    rw [hr] at hw
    rw [hh] at hp
    exact freq_filter_invariant pairs es.toAgentState
      (by rw [hes]; intro w _ p hp; cases hp) w hw p hp

/-- C1 witness: the amended invariant instantiated on a concrete game. -/
theorem C1_witness :
    (∀ w ∈ (runFrequencyFeedbacks ⟨[['e','e','a','a','b'], ['b','z','a','z','z']], [], 0⟩
        [(['a','a','b','c','d'], ['y','y','y','b','b'])]).remaining,
       ∀ p ∈ (runFrequencyFeedbacks ⟨[['e','e','a','a','b'], ['b','z','a','z','z']], [], 0⟩
        [(['a','a','b','c','d'], ['y','y','y','b','b'])]).history,
         match_feedback p.1 p.2 w = true)
    ∧ (∀ w ∈ (runEntropyFeedbacks ⟨⟨[['e','e','a','a','b']], [], 0⟩, [], false⟩
        [(['a','a','b','c','d'], ['y','y','y','b','b'])]).remaining,
       ∀ p ∈ (runEntropyFeedbacks ⟨⟨[['e','e','a','a','b']], [], 0⟩, [], false⟩
        [(['a','a','b','c','d'], ['y','y','y','b','b'])]).history,
         match_feedback p.1 p.2 w = true) :=
  C1_filter_history_invariant
    [(['a','a','b','c','d'], ['y','y','y','b','b'])]
    ⟨[['e','e','a','a','b'], ['b','z','a','z','z']], [], 0⟩
    ⟨⟨[['e','e','a','a','b']], [], 0⟩, [], false⟩ rfl rfl

/-- Mapping chunkwise and concatenating in order is the plain map. -/
lemma chunks50_flatten {α β : Type} (f : α → β) (l : List α) :
    ((chunks50 l).map (fun c => c.map f)).flatten = l.map f := by
  induction l using chunks50.induct with
  | case1 =>
    rw [chunks50]
    rfl
  | case2 a rest ih =>
    rw [chunks50]
    simp only [List.map_cons, List.flatten_cons, ih]
    rw [← List.map_append, List.take_append_drop]
    simp

/-- C4: with the same candidate list and the same chosen evaluation set,
the parallel branch of the entropy dispatcher (chunked `executor.map`,
results concatenated in input order) returns exactly the same list of
entropy scores as the sequential branch, one score per word of the
candidate list, in the same order. -/
theorem C4_parallel_eq_sequential (guesses entropy_set : List W) :
    dispatch_compute_entropy true guesses entropy_set
      = dispatch_compute_entropy false guesses entropy_set
    ∧ (dispatch_compute_entropy true guesses entropy_set).length = guesses.length := by
  have h := chunks50_flatten (entropy_task_simple entropy_set) guesses
  constructor
  · simp only [dispatch_compute_entropy, if_true, if_false]
    exact h
  · simp only [dispatch_compute_entropy, if_true]
    rw [h, List.length_map]

lemma traceFeedbacks_length (guessF : AgentState → W)
    (procF : AgentState → W → W → AgentState) (fallback target : W) :
    ∀ fuel (s : AgentState),
      (traceFeedbacks guessF procF fallback target fuel s).length = fuel := by
  intro fuel
  induction fuel with
  | zero => intro s; rfl
  | succ n ih =>
    intro s
    rw [traceFeedbacks]
    simp only [List.length_cons, ih]

/-- The driver loop returns `attempt + i` where `i` is the index of the
first all-green feedback in the observed trace, and 6 when there is
none. -/
lemma evalGo_spec (guessF : AgentState → W)
    (procF : AgentState → W → W → AgentState) (fallback target : W) :
    ∀ fuel attempt (s : AgentState),
      evalGo guessF procF fallback target fuel attempt s
      = (match firstGreenIdx (traceFeedbacks guessF procF fallback target fuel s) with
         | some i => attempt + i
         | none => 6) := by
  intro fuel
  induction fuel with
  | zero => intro attempt s; rfl
  | succ n ih =>
    intro attempt s
    rw [evalGo, traceFeedbacks]
    by_cases h : compute_feedback
        (if s.remaining.isEmpty then fallback else guessF s) target = greensW
    · simp only [h]
      simp [firstGreenIdx]
    · simp only [if_neg h, ih, firstGreenIdx, if_neg h]
      cases hfi : firstGreenIdx (traceFeedbacks guessF procF fallback target n
          (procF s (if s.remaining.isEmpty then fallback else guessF s)
            (compute_feedback (if s.remaining.isEmpty then fallback else guessF s)
              target))) with
      | none => simp
      | some i =>
        simp
        ring

/-- C6 amended: the evaluation driver runs the guess / feedback /
process cycle for up to 5 attempts (`range(1, 6)`), stops as soon as the
oracle's feedback is all-green returning that attempt number (`1 + i`
for the first all-green index `i` in the feedback trace), and returns 6
— not budget + 1 = 7 — when no attempt succeeded; when the candidate
set is empty the fallback word is guessed. -/
theorem C6_driver_characterization (guessF : AgentState → W)
    (procF : AgentState → W → W → AgentState) (fallback target : W)
    (s : AgentState) :
    evaluate_agent guessF procF fallback s target
    = (match firstGreenIdx (traceFeedbacks guessF procF fallback target 5 s) with
       | some i => 1 + i
       | none => 6)
    ∧ (traceFeedbacks guessF procF fallback target 5 s).length = 5 :=
  ⟨evalGo_spec guessF procF fallback target 5 1 s,
   traceFeedbacks_length guessF procF fallback target 5 s⟩

/-- C6 counterexample: an agent that always guesses "aaaaa" against
target "bbbbb" never succeeds; the driver returns 6 (after only 5
attempts), not budget + 1 = 7 as the claim states. -/
theorem C6_counterexample :
    evaluate_agent (fun _ => ['a','a','a','a','a']) RandomAgent.process_feedback
      ['a','a','a','a','a'] ⟨[['a','a','a','a','a']], [], 0⟩ ['b','b','b','b','b'] = 6
    ∧ firstGreenIdx (traceFeedbacks (fun _ => ['a','a','a','a','a'])
        RandomAgent.process_feedback ['a','a','a','a','a'] ['b','b','b','b','b'] 5
        ⟨[['a','a','a','a','a']], [], 0⟩) = none
    ∧ (6 : Nat) ≠ 7 := by decide

/-- The state returned by `EntropyAgent.guess`: unchanged, except that a
round-0 call with an empty cache stores the freshly computed entropy
scores in `init_entropy_cache`. -/
lemma EntropyAgent_guess_state (es : EntropyState) :
    (EntropyAgent.guess es).2
    = if es.round = 0 ∧ es.init_entropy_cache = [] then
        { es with init_entropy_cache := List.zip es.remaining (dispatch_compute_entropy es.multiprocessing es.remaining es.remaining) }
      else es := by
  simp only [EntropyAgent.guess]
  by_cases h1 : es.round = 0 ∧ es.init_entropy_cache ≠ []
  · rw [if_pos h1, if_neg (fun hc => h1.2 hc.2)]
  · rw [if_neg h1]
    by_cases h2 : es.round = 0
    · have hc : es.init_entropy_cache = [] := by
        by_contra hne
        exact h1 ⟨h2, hne⟩
      rw [if_pos h2, if_pos ⟨h2, hc⟩]
    · rw [if_neg h2, if_neg (fun hc => h2 hc.1)]

/-- C3 counterexample: `EntropyAgent.guess` does mutate observable
state.  On a reachable state (a fresh agent constructed without a cache
file: round 0, empty `init_entropy_cache`), calling `guess()` populates
the entropy cache, so the cache differs before and after the call. -/
theorem C3_counterexample :
    (⟨⟨[['a','a','a','a','a']], [], 0⟩, [], false⟩ :
        EntropyState).init_entropy_cache = []
    ∧ (EntropyAgent.guess
        ⟨⟨[['a','a','a','a','a']], [], 0⟩, [], false⟩).2.init_entropy_cache ≠ [] := by
  constructor
  · rfl
  · rw [EntropyAgent_guess_state]
    simp [dispatch_compute_entropy]

/-- C3 amended: `guess()` never changes the candidate set, the history
or the round counter for any variant, and leaves the whole state intact
except that `EntropyAgent.guess` (and `ExploreExploitAgent.guess` while
exploring) fills the entropy cache on a round-0 call that found it
empty. -/
theorem C3_guess_frame (pick er : Nat) (s : AgentState) (es : EntropyState) :
    (RandomAgent.guess pick s).2 = s
    ∧ (DiverseRandomAgent.guess s).2 = s
    ∧ (FrequencyAgent.guess s).2 = s
    ∧ (EntropyAgent.guess es).2.remaining = es.remaining
    ∧ (EntropyAgent.guess es).2.history = es.history
    ∧ (EntropyAgent.guess es).2.round = es.round
    ∧ (¬(es.round = 0 ∧ es.init_entropy_cache = []) → (EntropyAgent.guess es).2 = es)
    ∧ (ExploreExploitAgent.guess er es).2.remaining = es.remaining
    ∧ (ExploreExploitAgent.guess er es).2.history = es.history
    ∧ (ExploreExploitAgent.guess er es).2.round = es.round
    ∧ (¬(es.round = 0 ∧ es.init_entropy_cache = [])
        → (ExploreExploitAgent.guess er es).2 = es) := by
  have hrem : (EntropyAgent.guess es).2.remaining = es.remaining := by
    rw [EntropyAgent_guess_state]
    split_ifs <;> rfl
  have hhist : (EntropyAgent.guess es).2.history = es.history := by
    rw [EntropyAgent_guess_state]
    split_ifs <;> rfl
  have hround : (EntropyAgent.guess es).2.round = es.round := by
    rw [EntropyAgent_guess_state]
    split_ifs <;> rfl
  have hfull : ¬(es.round = 0 ∧ es.init_entropy_cache = [])
      → (EntropyAgent.guess es).2 = es := by
    intro h
    rw [EntropyAgent_guess_state, if_neg h]
  have hee : ∀ (P : EntropyState → Prop), P (EntropyAgent.guess es).2 → P es
      → P (ExploreExploitAgent.guess er es).2 := by
    intro P h1 h2
    unfold ExploreExploitAgent.guess
    split_ifs
    · exact h1
    · exact h2
  refine ⟨rfl, rfl, rfl, hrem, hhist, hround, hfull, ?_, ?_, ?_, ?_⟩
  · exact hee (fun x => x.remaining = es.remaining) hrem rfl
  · exact hee (fun x => x.history = es.history) hhist rfl
  · exact hee (fun x => x.round = es.round) hround rfl
  · intro h
    exact hee (fun x => x = es) (hfull h) rfl

/-- C3 witness: on a round-1 state the entropy agent's `guess` leaves
the state exactly unchanged. -/
theorem C3_witness :
    (EntropyAgent.guess ⟨⟨[['a','b','c','d','e']], [], 1⟩, [], false⟩).2
      = ⟨⟨[['a','b','c','d','e']], [], 1⟩, [], false⟩ :=
  (C3_guess_frame 0 0 ⟨[], [], 0⟩
    ⟨⟨[['a','b','c','d','e']], [], 1⟩, [], false⟩).2.2.2.2.2.2.1 (by simp)

/-!
C8: the entropy score is non-negative and vanishes exactly on a single
feedback bucket.
-/

lemma list_sum_nonpos (l : List ℝ) (h : ∀ x ∈ l, x ≤ 0) : l.sum ≤ 0 := by
  induction l with
  | nil => simp
  | cons a rest ih =>
    simp only [List.sum_cons]
    have ha := h a (by simp)
    have hr := ih (fun x hx => h x (by simp [hx]))
    linarith

lemma list_sum_eq_zero_iff_of_nonpos (l : List ℝ) (h : ∀ x ∈ l, x ≤ 0) :
    l.sum = 0 ↔ ∀ x ∈ l, x = 0 := by
  induction l with
  | nil => simp
  | cons a rest ih =>
    simp only [List.sum_cons]
    have ha := h a (by simp)
    have hrest : ∀ x ∈ rest, x ≤ 0 := fun x hx => h x (by simp [hx])
    have hr := list_sum_nonpos rest hrest
    constructor
    · intro h0
      have ha0 : a = 0 := by linarith
      have hs0 : rest.sum = 0 := by linarith
      intro x hx
      rcases List.mem_cons.mp hx with rfl | hx'
      · exact ha0
      · exact (ih hrest).mp hs0 x hx'
    · intro hall
      rw [hall a (by simp), zero_add]
      exact (ih hrest).mpr (fun x hx => hall x (by simp [hx]))

lemma entropy_term_nonpos (c n : Nat) (h1 : 1 ≤ c) (h2 : c ≤ n) :
    ((c : ℝ) / n) * Real.logb 2 ((c : ℝ) / n) ≤ 0 := by
  have hn : (0 : ℝ) < n := by
    have : 0 < n := by omega
    exact_mod_cast this
  have hc : (0 : ℝ) < c := by
    have : 0 < c := by omega
    exact_mod_cast this
  have hp : (0 : ℝ) < (c : ℝ) / n := div_pos hc hn
  have hle : (c : ℝ) / n ≤ 1 := by
    rw [div_le_one hn]
    exact_mod_cast h2
  exact mul_nonpos_of_nonneg_of_nonpos hp.le
    (Real.logb_nonpos (by norm_num) hp.le hle)

lemma entropy_term_eq_zero_iff (c n : Nat) (h1 : 1 ≤ c) (h2 : c ≤ n) :
    ((c : ℝ) / n) * Real.logb 2 ((c : ℝ) / n) = 0 ↔ c = n := by
  have hn : (0 : ℝ) < n := by
    have : 0 < n := by omega
    exact_mod_cast this
  have hc : (0 : ℝ) < c := by
    have : 0 < c := by omega
    exact_mod_cast this
  have hp : (0 : ℝ) < (c : ℝ) / n := div_pos hc hn
  constructor
  · intro h
    rcases mul_eq_zero.mp h with h' | h'
    · exact absurd h' (ne_of_gt hp)
    · rcases Real.logb_eq_zero.mp h' with h'' | h'' | h'' | h'' | h'' | h''
      · norm_num at h''
      · norm_num at h''
      · norm_num at h''
      · exact absurd h'' (ne_of_gt hp)
      · have hcn : (c : ℝ) = n := by
          rw [div_eq_one_iff_eq (ne_of_gt hn)] at h''
          exact h''
        exact_mod_cast hcn
      · rw [h''] at hp
        norm_num at hp
  · intro h
    subst h
    rw [div_self (ne_of_gt hn)]
    simp

/-- C8: for a non-empty evaluation set `S`, the entropy score of a guess
is non-negative, and it is zero exactly when every target in `S` yields
the same feedback code (a single non-empty bucket). -/
theorem C8_entropy_nonneg_and_zero_iff (g : W) (S : List W) (hS : S ≠ []) :
    0 ≤ entropy_task_simple S g
    ∧ (entropy_task_simple S g = 0
        ↔ ∀ t1 ∈ S, ∀ t2 ∈ S, compute_feedback g t1 = compute_feedback g t2) := by
  classical
  set fbs := S.map (fun target => compute_feedback g target) with hfbs
  have hflen : fbs.length = S.length := by
    rw [hfbs, List.length_map]
  have hn1 : 1 ≤ S.length := by
    have : 0 < S.length := List.length_pos.mpr hS
    omega
  have hE : entropy_task_simple S g
      = -((fbs.dedup.map (fun fb =>
          ((fbs.count fb : ℝ) / (S.length : ℝ))
            * Real.logb 2 ((fbs.count fb : ℝ) / (S.length : ℝ)))).sum) := rfl
  have hbounds : ∀ fb ∈ fbs.dedup, 1 ≤ fbs.count fb ∧ fbs.count fb ≤ S.length := by
    intro fb hfb
    constructor
    · exact List.count_pos_iff.mpr (List.mem_dedup.mp hfb)
    · rw [← hflen]
      exact List.count_le_length fb fbs
  have hterms : ∀ x ∈ fbs.dedup.map (fun fb =>
      ((fbs.count fb : ℝ) / (S.length : ℝ))
        * Real.logb 2 ((fbs.count fb : ℝ) / (S.length : ℝ))), x ≤ 0 := by
    intro x hx
    obtain ⟨fb, hfb, rfl⟩ := List.mem_map.mp hx
    exact entropy_term_nonpos _ _ (hbounds fb hfb).1 (hbounds fb hfb).2
  refine ⟨by rw [hE]; exact neg_nonneg.mpr (list_sum_nonpos _ hterms), ?_⟩
  rw [hE, neg_eq_zero, list_sum_eq_zero_iff_of_nonpos _ hterms]
  constructor
  · intro h t1 ht1 t2 ht2
    have hcount : ∀ fb ∈ fbs.dedup, fbs.count fb = S.length := by
      intro fb hfb
      exact (entropy_term_eq_zero_iff _ _ (hbounds fb hfb).1 (hbounds fb hfb).2).mp
        (h _ (List.mem_map_of_mem _ hfb))
    have h1 : compute_feedback g t1 ∈ fbs := by
      rw [hfbs]
      exact List.mem_map_of_mem _ ht1
    have h2 : compute_feedback g t2 ∈ fbs := by
      rw [hfbs]
      exact List.mem_map_of_mem _ ht2
    have hfull : fbs.count (compute_feedback g t1) = fbs.length := by
      rw [hflen]
      exact hcount _ (List.mem_dedup.mpr h1)
    exact List.count_eq_length.mp hfull _ h2
  · intro hall x hx
    obtain ⟨fb, hfb, rfl⟩ := List.mem_map.mp hx
    have hm : fb ∈ fbs := List.mem_dedup.mp hfb
    obtain ⟨t0, ht0, rfl⟩ := by
      rw [hfbs] at hm
      exact List.mem_map.mp hm
    have hfull : fbs.count (compute_feedback g t0) = S.length := by
      rw [← hflen]
      apply List.count_eq_length.mpr
      intro b hb
      obtain ⟨t1, ht1, rfl⟩ := by
        rw [hfbs] at hb
        exact List.mem_map.mp hb
      exact hall t0 ht0 t1 ht1
    rw [hfull]
    exact (entropy_term_eq_zero_iff _ _ hn1 le_rfl).mpr rfl

/-- C8 witness: a singleton evaluation set, where the single bucket
makes the entropy exactly zero. -/
theorem C8_witness :
    0 ≤ entropy_task_simple [['a','b','c','d','e']] ['a','a','a','a','a']
    ∧ (entropy_task_simple [['a','b','c','d','e']] ['a','a','a','a','a'] = 0
        ↔ ∀ t1 ∈ [(['a','b','c','d','e'] : W)], ∀ t2 ∈ [(['a','b','c','d','e'] : W)],
            compute_feedback ['a','a','a','a','a'] t1
              = compute_feedback ['a','a','a','a','a'] t2) :=
  C8_entropy_nonneg_and_zero_iff ['a','a','a','a','a'] [['a','b','c','d','e']]
    (by decide)
